import Mathlib

/-!
Verification of the diffusion noise schedule, the DDIM-style sampler, the
style-transfer schedule construction, and the EMA utilities of the
dance-diffusion training code (`audio_diffusion/utils.py`, `train_uncond.py`).

Tensors are modelled elementwise by real scalars; the elementwise schedule
and sampler arithmetic is embedded over `ℝ`.  Python's `**` on nonnegative
floats is embedded as `Real.rpow`, `torch.atan2 y x` as `Complex.arg (x + y*I)`,
and the in-place, assertion-guarded `ema_update` as an `Except` value carrying
the shadow state at the moment of an assertion failure.
-/

noncomputable section

open scoped Real

/-- Embedding of `get_alphas_sigmas(t)` from `audio_diffusion/utils.py`:
`(cos(t*pi/2), sin(t*pi/2))`. -/
def get_alphas_sigmas (t : ℝ) : ℝ × ℝ :=
  (Real.cos (t * Real.pi / 2), Real.sin (t * Real.pi / 2))

/-- Embedding of `t_to_alpha_sigma(t)` from `audio_diffusion/utils.py` (identical body to
`get_alphas_sigmas`). -/
def t_to_alpha_sigma (t : ℝ) : ℝ × ℝ :=
  (Real.cos (t * Real.pi / 2), Real.sin (t * Real.pi / 2))

/-- Embedding of `alpha_sigma_to_t(alpha, sigma)` from `audio_diffusion/utils.py`:
`atan2(sigma, alpha) / pi * 2`, with `atan2 y x` embedded as the argument of
the complex number `x + y*I`. -/
def alpha_sigma_to_t (alpha sigma : ℝ) : ℝ :=
  Complex.arg (↑alpha + ↑sigma * Complex.I) / Real.pi * 2

/-- Embedding of `get_crash_schedule(t)` from `audio_diffusion/utils.py`:
`sigma = sin(t*pi/2)**2`, `alpha = (1 - sigma**2)**0.5`,
result `alpha_sigma_to_t(alpha, sigma)`. -/
def get_crash_schedule (t : ℝ) : ℝ :=
  let sigma := Real.sin (t * Real.pi / 2) ^ 2
  let alpha := (1 - sigma ^ 2) ^ ((1 : ℝ) / 2)
  alpha_sigma_to_t alpha sigma

/-- The scalar configuration and step counter of `EMAWarmup`
(`audio_diffusion/utils.py`). -/
structure EMAWarmup where
  inv_gamma : ℝ
  power : ℝ
  min_value : ℝ
  max_value : ℝ
  start_at : ℤ
  last_epoch : ℤ

/-- Embedding of `EMAWarmup.get_value` from `audio_diffusion/utils.py`:
`epoch = max(0, last_epoch - start_at)`;
`value = 1 - (1 + epoch / inv_gamma) ** -power`;
`return 0. if epoch < 0 else min(max_value, max(min_value, value))`. -/
def EMAWarmup.get_value (w : EMAWarmup) : ℝ :=
  let epoch : ℤ := max 0 (w.last_epoch - w.start_at)
  let value : ℝ := 1 - (1 + (epoch : ℝ) / w.inv_gamma) ^ (-w.power)
  if epoch < 0 then 0 else min w.max_value (max w.min_value value)

/-- The slice of a `torch.nn.Module` that `ema_update` touches: named
parameters and named buffers, each a name-set together with a value map. -/
structure NnModule where
  paramNames : Finset String
  params : String → ℝ
  bufferNames : Finset String
  buffers : String → ℝ

/-- Embedding of `ema_update(model, averaged_model, decay)` from `audio_diffusion/utils.py`.
The Python function asserts that the parameter name-sets agree, blends every
shadow parameter in place (`shadow*decay + model*(1-decay)`), then asserts
that the buffer name-sets agree and copies every model buffer over the shadow
buffer.  A failed assertion aborts the update; the `Except.error` payload is
the shadow state at that moment (mutated in place so far). -/
def ema_update (model averaged : NnModule) (decay : ℝ) : Except NnModule NnModule :=
  if model.paramNames = averaged.paramNames then
    let averaged1 : NnModule :=
      { averaged with
        params := fun n =>
          if n ∈ model.paramNames then
            averaged.params n * decay + model.params n * (1 - decay)
          else averaged.params n }
    if model.bufferNames = averaged1.bufferNames then
      Except.ok
        { averaged1 with
          buffers := fun n =>
            if n ∈ model.bufferNames then model.buffers n else averaged1.buffers n }
    else Except.error averaged1
  else Except.error averaged

/-- Embedding of `torch.linspace(1, 0, steps+1)` from `sample` in `train_uncond.py`:
the evenly spaced points `1 - i/steps`, `i = 0..steps`. -/
def linspace_one_zero (steps : ℕ) : List ℝ :=
  (List.range (steps + 1)).map fun i : ℕ => 1 - (i : ℝ) / (steps : ℝ)

/-- The working schedule of `sample` in `train_uncond.py`:
`t = get_crash_schedule(torch.linspace(1, 0, steps+1)[:-1])`. -/
def sampleSched (steps : ℕ) : List ℝ :=
  ((linspace_one_zero steps).dropLast).map get_crash_schedule

/-- Entry `t[i]` inside the sampling loop of `sample`. -/
def schedT (steps : ℕ) (i : ℕ) : ℝ :=
  (sampleSched steps).getD i 0

/-- The loop-carried state of `sample` in `train_uncond.py`: the current
iterate `x`, the last predicted denoised image `pred`, the number of model
queries made, and the number of fresh-noise draws consumed. -/
structure SamplerState where
  x : ℝ
  pred : ℝ
  queries : ℕ
  draws : ℕ

/-- One iteration `i` of the sampling loop of `sample` in `train_uncond.py`.
`model x t` is the model query; `noise k` is the `k`-th fresh standard-normal
draw (`torch.randn_like`), consumed only on the `if eta:` branch. -/
def sampleStep (model : ℝ → ℝ → ℝ) (eta : ℝ) (noise : ℕ → ℝ) (steps : ℕ)
    (s : SamplerState) (i : ℕ) : SamplerState :=
  let t := schedT steps
  let alphas := fun j => (get_alphas_sigmas (t j)).1
  let sigmas := fun j => (get_alphas_sigmas (t j)).2
  let v := model s.x (t i)
  let pred := s.x * alphas i - v * sigmas i
  let eps := s.x * sigmas i + v * alphas i
  if i < steps - 1 then
    let ddim_sigma := eta * Real.sqrt (sigmas (i + 1) ^ 2 / sigmas i ^ 2) *
      Real.sqrt (1 - alphas i ^ 2 / alphas (i + 1) ^ 2)
    let adjusted_sigma := Real.sqrt (sigmas (i + 1) ^ 2 - ddim_sigma ^ 2)
    let x1 := pred * alphas (i + 1) + eps * adjusted_sigma
    if eta = 0 then
      { x := x1, pred := pred, queries := s.queries + 1, draws := s.draws }
    else
      { x := x1 + noise s.draws * ddim_sigma, pred := pred,
        queries := s.queries + 1, draws := s.draws + 1 }
  else
    { x := s.x, pred := pred, queries := s.queries + 1, draws := s.draws }

/-- Embedding of `sample(model, x, steps, eta)` from `train_uncond.py`, as the final
loop state (the Python function returns `pred` of that state). -/
def sample (model : ℝ → ℝ → ℝ) (x0 : ℝ) (steps : ℕ) (eta : ℝ)
    (noise : ℕ → ℝ) : SamplerState :=
  (List.range steps).foldl (sampleStep model eta noise steps) ⟨x0, 0, 0, 0⟩

/-- Embedding of `step_list` in `do_style_transfer` (`audio_diffusion/utils.py`):
`get_crash_schedule(torch.linspace(0, 1, steps+1))` filtered to the entries
strictly below `noise_level`. -/
def styleStepList (steps : ℕ) (noise_level : ℝ) : List ℝ :=
  (((List.range (steps + 1)).map fun j : ℕ =>
      get_crash_schedule ((j : ℝ) / (steps : ℝ))).filter
    fun s => decide (s < noise_level))

/-- The timestep sequence `step_list.flip(0)[:-1]` that `do_style_transfer`
hands to the shared stepping loop. -/
def styleSteps (steps : ℕ) (noise_level : ℝ) : List ℝ :=
  ((styleStepList steps noise_level).reverse).dropLast

/-- Entry `step_list[-1]` in `do_style_transfer`: the timestep whose
`(alpha, sigma)` pair is used to noise the input audio. -/
def styleInitT (steps : ℕ) (noise_level : ℝ) : ℝ :=
  ((styleStepList steps noise_level).getLast?).getD 0

/-- The initial condition of `do_style_transfer`:
`noised = audio_sample * alpha + randn * sigma` at the timestep
`step_list[-1]`, elementwise. -/
def styleNoised (audio eps : ℝ) (steps : ℕ) (noise_level : ℝ) : ℝ :=
  let t0 := styleInitT steps noise_level
  audio * (t_to_alpha_sigma t0).1 + eps * (t_to_alpha_sigma t0).2

end

/-! ### Schedule lemmas -/

lemma sin_sq_mem_Icc (x : ℝ) : Real.sin x ^ 2 ∈ Set.Icc (-1 : ℝ) 1 :=
  ⟨le_trans (by norm_num) (sq_nonneg _), Real.sin_sq_le_one x⟩

/-- Value of `atan2` at a point given by its angle: the argument of
`cos φ + sin φ * I` is `φ` itself on `(-π, π]`. -/
lemma arg_cos_sin (φ : ℝ) (h1 : -Real.pi < φ) (h2 : φ ≤ Real.pi) :
    Complex.arg ((Real.cos φ : ℂ) + (Real.sin φ : ℂ) * Complex.I) = φ := by
  rw [Complex.ofReal_cos, Complex.ofReal_sin]
  exact Complex.arg_cos_add_sin_mul_I ⟨h1, h2⟩

/-- Closed form of the crash schedule: `arcsin(sin(t*pi/2)^2) / pi * 2`. -/
lemma get_crash_schedule_eq (t : ℝ) :
    get_crash_schedule t = Real.arcsin (Real.sin (t * Real.pi / 2) ^ 2) / Real.pi * 2 := by
  simp only [get_crash_schedule, alpha_sigma_to_t]
  set s : ℝ := Real.sin (t * Real.pi / 2) ^ 2 with hsdef
  have hs0 : (0 : ℝ) ≤ s := sq_nonneg _
  have hs1 : s ≤ 1 := Real.sin_sq_le_one _
  have hpi := Real.pi_pos
  have hφ0 : 0 ≤ Real.arcsin s := Real.arcsin_nonneg.2 hs0
  have hφ2 : Real.arcsin s ≤ Real.pi / 2 := Real.arcsin_le_pi_div_two s
  have halpha : (1 - s ^ 2) ^ ((1 : ℝ) / 2) = Real.cos (Real.arcsin s) := by
    rw [Real.cos_arcsin, Real.sqrt_eq_rpow]
  have hsinc : (s : ℂ) = ((Real.sin (Real.arcsin s) : ℝ) : ℂ) := by
    rw [Real.sin_arcsin (by linarith) hs1]
  rw [halpha, hsinc, arg_cos_sin (Real.arcsin s) (by linarith) (by linarith)]

lemma get_crash_schedule_zero : get_crash_schedule 0 = 0 := by
  rw [get_crash_schedule_eq]
  simp

lemma get_crash_schedule_one : get_crash_schedule 1 = 1 := by
  rw [get_crash_schedule_eq]
  rw [one_mul, Real.sin_pi_div_two, one_pow, Real.arcsin_one]
  field_simp
  ring

lemma get_crash_schedule_strictMonoOn :
    StrictMonoOn get_crash_schedule (Set.Icc (0 : ℝ) 1) := by
  intro a ha b hb hab
  rw [get_crash_schedule_eq, get_crash_schedule_eq]
  have hpi := Real.pi_pos
  have hmem : ∀ x : ℝ, x ∈ Set.Icc (0 : ℝ) 1 →
      x * Real.pi / 2 ∈ Set.Icc (-(Real.pi / 2)) (Real.pi / 2) := by
    intro x hx
    constructor
    · nlinarith [hx.1]
    · nlinarith [hx.2]
  have hsin : Real.sin (a * Real.pi / 2) < Real.sin (b * Real.pi / 2) :=
    Real.strictMonoOn_sin (hmem a ha) (hmem b hb) (by nlinarith)
  have hsa : 0 ≤ Real.sin (a * Real.pi / 2) :=
    Real.sin_nonneg_of_nonneg_of_le_pi (by nlinarith [ha.1]) (by nlinarith [ha.2])
  have hsq : Real.sin (a * Real.pi / 2) ^ 2 < Real.sin (b * Real.pi / 2) ^ 2 := by
    nlinarith
  have harc : Real.arcsin (Real.sin (a * Real.pi / 2) ^ 2)
      < Real.arcsin (Real.sin (b * Real.pi / 2) ^ 2) :=
    Real.strictMonoOn_arcsin (sin_sq_mem_Icc _) (sin_sq_mem_Icc _) hsq
  have h2pi : 0 < 2 / Real.pi := by positivity
  calc Real.arcsin (Real.sin (a * Real.pi / 2) ^ 2) / Real.pi * 2
      = Real.arcsin (Real.sin (a * Real.pi / 2) ^ 2) * (2 / Real.pi) := by ring
    _ < Real.arcsin (Real.sin (b * Real.pi / 2) ^ 2) * (2 / Real.pi) := by
        exact mul_lt_mul_of_pos_right harc h2pi
    _ = Real.arcsin (Real.sin (b * Real.pi / 2) ^ 2) / Real.pi * 2 := by ring

lemma get_crash_schedule_monotoneOn :
    MonotoneOn get_crash_schedule (Set.Icc (0 : ℝ) 1) :=
  get_crash_schedule_strictMonoOn.monotoneOn

lemma get_crash_schedule_pos {t : ℝ} (h0 : 0 < t) (h1 : t ≤ 1) :
    0 < get_crash_schedule t := by
  rw [get_crash_schedule_eq]
  have hpi := Real.pi_pos
  have hsin : 0 < Real.sin (t * Real.pi / 2) :=
    Real.sin_pos_of_pos_of_lt_pi (by nlinarith) (by nlinarith)
  have harc : 0 < Real.arcsin (Real.sin (t * Real.pi / 2) ^ 2) :=
    Real.arcsin_pos.2 (by positivity)
  positivity

lemma get_crash_schedule_le_one (t : ℝ) : get_crash_schedule t ≤ 1 := by
  rw [get_crash_schedule_eq]
  have hpi := Real.pi_pos
  have harc : Real.arcsin (Real.sin (t * Real.pi / 2) ^ 2) ≤ Real.pi / 2 :=
    Real.arcsin_le_pi_div_two _
  have h1 : Real.arcsin (Real.sin (t * Real.pi / 2) ^ 2) / Real.pi * 2
      ≤ (Real.pi / 2) / Real.pi * 2 := by gcongr
  have h2 : (Real.pi / 2) / Real.pi * 2 = 1 := by
    field_simp
    ring
  linarith

/-! ### Claims about the schedule functions (C7, C8) -/

/-- C7: for every `t` strictly between 0 and 1, `alpha_sigma_to_t` applied to
the pair returned by `get_alphas_sigmas t` gives back exactly `t`
(round trip, exact in real arithmetic). -/
theorem claim_C7_round_trip (t : ℝ) (h0 : 0 < t) (h1 : t < 1) :
    alpha_sigma_to_t (get_alphas_sigmas t).1 (get_alphas_sigmas t).2 = t := by
  have hpi := Real.pi_pos
  simp only [get_alphas_sigmas, alpha_sigma_to_t]
  rw [arg_cos_sin (t * Real.pi / 2) (by nlinarith) (by nlinarith)]
  field_simp
  ring

/-- Witness for C7 at `t = 1/2`. -/
theorem claim_C7_round_trip_witness :
    (0 : ℝ) < 1 / 2 ∧ (1 / 2 : ℝ) < 1 ∧
    alpha_sigma_to_t (get_alphas_sigmas (1 / 2)).1 (get_alphas_sigmas (1 / 2)).2 = 1 / 2 :=
  ⟨by norm_num, by norm_num, claim_C7_round_trip (1 / 2) (by norm_num) (by norm_num)⟩

/-- C8: boundary values `get_alphas_sigmas 0 = (1,0)`,
`get_alphas_sigmas 1 = (0,1)`, `get_crash_schedule 0 = 0`,
`get_crash_schedule 1 = 1`, and `get_crash_schedule` is monotonically
non-decreasing on `[0,1]`. -/
theorem claim_C8_boundaries_and_monotone :
    get_alphas_sigmas 0 = (1, 0) ∧ get_alphas_sigmas 1 = (0, 1) ∧
    get_crash_schedule 0 = 0 ∧ get_crash_schedule 1 = 1 ∧
    ∀ s t : ℝ, 0 ≤ s → s ≤ t → t ≤ 1 →
      get_crash_schedule s ≤ get_crash_schedule t := by
  refine ⟨?_, ?_, get_crash_schedule_zero, get_crash_schedule_one, ?_⟩
  · simp [get_alphas_sigmas]
  · simp [get_alphas_sigmas]
  · intro s t hs hst ht1
    exact get_crash_schedule_monotoneOn ⟨hs, hst.trans ht1⟩ ⟨hs.trans hst, ht1⟩ hst

/-- Witness for C8's monotonicity part at `s = 0`, `t = 1`. -/
theorem claim_C8_boundaries_and_monotone_witness :
    (0 : ℝ) ≤ 0 ∧ (0 : ℝ) ≤ 1 ∧ (1 : ℝ) ≤ 1 ∧
    get_crash_schedule 0 ≤ get_crash_schedule 1 :=
  ⟨le_refl 0, by norm_num, le_refl 1,
    claim_C8_boundaries_and_monotone.2.2.2.2 0 1 (le_refl 0) (by norm_num) (le_refl 1)⟩

/-! ### EMAWarmup lemmas and claims (C2, C3) -/

/-- The dead branch of `get_value`: `epoch = max(0, ...)` is never negative,
so the function always returns the clamped value. -/
lemma EMAWarmup.get_value_eq (w : EMAWarmup) :
    w.get_value = min w.max_value (max w.min_value
      (1 - (1 + ((max 0 (w.last_epoch - w.start_at) : ℤ) : ℝ) / w.inv_gamma)
        ^ (-w.power))) := by
  unfold EMAWarmup.get_value
  rw [if_neg (not_lt.2 (le_max_left 0 _))]

/-- At `last_epoch ≤ start_at` the raw warmup value is `1 - 1^(-power) = 0`. -/
lemma EMAWarmup.get_value_of_le (w : EMAWarmup) (h : w.last_epoch ≤ w.start_at) :
    w.get_value = min w.max_value (max w.min_value 0) := by
  rw [EMAWarmup.get_value_eq]
  have h0 : max 0 (w.last_epoch - w.start_at) = 0 := max_eq_left (by omega)
  rw [h0]
  norm_num [Real.one_rpow]

/-- C2 counterexample: with `min_value = 1/2`, `start_at = 5`, `last_epoch = 0`
the configuration has `last_epoch < start_at` but `get_value` returns `1/2`,
not `0`. -/
theorem claim_C2_counterexample :
    (0 : ℤ) < 5 ∧
    EMAWarmup.get_value ⟨1, 1, 1 / 2, 1, 5, 0⟩ = 1 / 2 ∧
    EMAWarmup.get_value ⟨1, 1, 1 / 2, 1, 5, 0⟩ ≠ 0 := by
  have h : EMAWarmup.get_value ⟨1, 1, 1 / 2, 1, 5, 0⟩ = 1 / 2 := by
    rw [EMAWarmup.get_value_of_le ⟨1, 1, 1 / 2, 1, 5, 0⟩ (by norm_num)]
    norm_num
  exact ⟨by norm_num, h, by rw [h]; norm_num⟩

/-- C2 (amended): for configurations with `inv_gamma > 0`, `power ≥ 0` and
`min_value ≤ max_value`, `get_value` returns the clamp of `0` into
`[min_value, max_value]` (hence exactly `0` only when `min_value ≤ 0`) for
every `last_epoch < start_at`; it is non-decreasing in `last_epoch` on
`last_epoch ≥ start_at`; and it always lies within `[min_value, max_value]`. -/
theorem claim_C2_warmup_props (γ p mn mx : ℝ) (sa : ℤ)
    (hγ : 0 < γ) (hp : 0 ≤ p) (hmm : mn ≤ mx) :
    (∀ le : ℤ, le < sa →
      EMAWarmup.get_value ⟨γ, p, mn, mx, sa, le⟩ = min mx (max mn 0)) ∧
    (∀ le₁ le₂ : ℤ, sa ≤ le₁ → le₁ ≤ le₂ →
      EMAWarmup.get_value ⟨γ, p, mn, mx, sa, le₁⟩ ≤
        EMAWarmup.get_value ⟨γ, p, mn, mx, sa, le₂⟩) ∧
    (∀ le : ℤ, mn ≤ EMAWarmup.get_value ⟨γ, p, mn, mx, sa, le⟩ ∧
      EMAWarmup.get_value ⟨γ, p, mn, mx, sa, le⟩ ≤ mx) := by
  refine ⟨?_, ?_, ?_⟩
  · intro le hle
    exact EMAWarmup.get_value_of_le ⟨γ, p, mn, mx, sa, le⟩ (le_of_lt hle)
  · intro le₁ le₂ _ h12
    rw [EMAWarmup.get_value_eq, EMAWarmup.get_value_eq]
    have he : (0 : ℤ) ≤ max 0 (le₁ - sa) := le_max_left 0 _
    have hee : max 0 (le₁ - sa) ≤ max 0 (le₂ - sa) := by omega
    have hb1 : (0 : ℝ) < 1 + ((max 0 (le₁ - sa) : ℤ) : ℝ) / γ := by
      have : (0 : ℝ) ≤ ((max 0 (le₁ - sa) : ℤ) : ℝ) := by exact_mod_cast he
      positivity
    have hbb : 1 + ((max 0 (le₁ - sa) : ℤ) : ℝ) / γ ≤
        1 + ((max 0 (le₂ - sa) : ℤ) : ℝ) / γ := by
      have hc : ((max 0 (le₁ - sa) : ℤ) : ℝ) ≤ ((max 0 (le₂ - sa) : ℤ) : ℝ) := by
        exact_mod_cast hee
      gcongr

    have hval : (1 + ((max 0 (le₂ - sa) : ℤ) : ℝ) / γ) ^ (-p) ≤
        (1 + ((max 0 (le₁ - sa) : ℤ) : ℝ) / γ) ^ (-p) :=
      Real.rpow_le_rpow_of_nonpos hb1 hbb (neg_nonpos.2 hp)
    exact min_le_min (le_refl mx) (max_le_max (le_refl mn) (by linarith))
  · intro le
    rw [EMAWarmup.get_value_eq]
    exact ⟨le_min hmm (le_max_left mn _), min_le_left mx _⟩

/-- Witness for C2 (amended): default configuration, `last_epoch = -1 < 0`. -/
theorem claim_C2_warmup_props_witness :
    (0 : ℝ) < 1 ∧ (0 : ℝ) ≤ 1 ∧ (0 : ℝ) ≤ 1 ∧ (-1 : ℤ) < 0 ∧
    EMAWarmup.get_value ⟨1, 1, 0, 1, 0, -1⟩ = min 1 (max 0 0) :=
  ⟨by norm_num, by norm_num, by norm_num, by norm_num,
    (claim_C2_warmup_props 1 1 0 1 0 (by norm_num) (by norm_num) (by norm_num)).1
      (-1) (by norm_num)⟩

/-- C3 counterexample: with the stated default configuration, `get_value` at
`last_epoch = 0` returns `0`, not `0.5`. -/
theorem claim_C3_counterexample :
    EMAWarmup.get_value ⟨1, 1, 0, 1, 0, 0⟩ ≠ 1 / 2 := by
  rw [EMAWarmup.get_value_of_le ⟨1, 1, 0, 1, 0, 0⟩ (by norm_num)]
  norm_num

/-- C3 (amended): with `inv_gamma=1, power=1, min_value=0, max_value=1,
start_at=0`, `get_value` returns `0` at `last_epoch = 0` (the value `0.5` is
attained at `last_epoch = 1`), and returns `0.9 = 1 - (1+9)^(-1)` at
`last_epoch = 9`. -/
theorem claim_C3_concrete_values :
    EMAWarmup.get_value ⟨1, 1, 0, 1, 0, 0⟩ = 0 ∧
    EMAWarmup.get_value ⟨1, 1, 0, 1, 0, 1⟩ = 1 / 2 ∧
    EMAWarmup.get_value ⟨1, 1, 0, 1, 0, 9⟩ = 9 / 10 := by
  refine ⟨?_, ?_, ?_⟩
  · rw [EMAWarmup.get_value_of_le ⟨1, 1, 0, 1, 0, 0⟩ (by norm_num)]
    norm_num
  · rw [EMAWarmup.get_value_eq]
    norm_num [Real.rpow_neg_one]
  · rw [EMAWarmup.get_value_eq]
    norm_num [Real.rpow_neg_one]

/-! ### ema_update lemmas and claims (C5, C6, C10) -/

/-- With matching name sets both assertions pass and `ema_update` returns the
fully updated shadow: blended parameters, verbatim-copied buffers. -/
lemma ema_update_ok (m s : NnModule) (hp : m.paramNames = s.paramNames)
    (hb : m.bufferNames = s.bufferNames) (d : ℝ) :
    ema_update m s d = Except.ok
      { paramNames := s.paramNames
        params := fun n =>
          if n ∈ m.paramNames then s.params n * d + m.params n * (1 - d)
          else s.params n
        bufferNames := s.bufferNames
        buffers := fun n => if n ∈ m.bufferNames then m.buffers n else s.buffers n } := by
  simp [ema_update, hp, hb]

/-- C5: with matching name sets, `ema_update` with `decay = 1` leaves every
shadow parameter unchanged, with `decay = 0` sets every shadow parameter equal
to the model parameter, and for every decay copies every model buffer
verbatim onto the shadow. -/
theorem claim_C5_ema_identities (m s : NnModule) (hp : m.paramNames = s.paramNames)
    (hb : m.bufferNames = s.bufferNames) (d : ℝ) :
    (∃ r, ema_update m s 1 = Except.ok r ∧ ∀ n, r.params n = s.params n) ∧
    (∃ r, ema_update m s 0 = Except.ok r ∧ ∀ n ∈ m.paramNames, r.params n = m.params n) ∧
    (∃ r, ema_update m s d = Except.ok r ∧ ∀ n ∈ m.bufferNames, r.buffers n = m.buffers n) := by
  refine ⟨⟨_, ema_update_ok m s hp hb 1, ?_⟩, ⟨_, ema_update_ok m s hp hb 0, ?_⟩,
    ⟨_, ema_update_ok m s hp hb d, ?_⟩⟩
  · intro n
    by_cases hn : n ∈ m.paramNames <;> simp [hn]
  · intro n hn
    simp [hn]
  · intro n hn
    simp [hn]

/-- C6: on a parameter or buffer name-set mismatch, `ema_update` aborts with
an assertion failure and never returns a completed update. -/
theorem claim_C6_mismatch_aborts (m s : NnModule) (d : ℝ)
    (h : m.paramNames ≠ s.paramNames ∨ m.bufferNames ≠ s.bufferNames) :
    (∃ e, ema_update m s d = Except.error e) ∧
    ∀ r, ema_update m s d ≠ Except.ok r := by
  by_cases hp : m.paramNames = s.paramNames
  · rcases h with h | h
    · exact absurd hp h
    · have : ema_update m s d = Except.error
          { s with
            params := fun n =>
              if n ∈ m.paramNames then s.params n * d + m.params n * (1 - d)
              else s.params n } := by
        simp [ema_update, hp, h]
      exact ⟨⟨_, this⟩, fun r hr => by rw [this] at hr; exact Except.noConfusion hr⟩
  · have : ema_update m s d = Except.error s := by
      simp [ema_update, hp]
    exact ⟨⟨_, this⟩, fun r hr => by rw [this] at hr; exact Except.noConfusion hr⟩

/-- C10: the failure behaviour of `ema_update` is asymmetric: on a parameter
name-set mismatch the shadow is aborted-on completely unchanged, while on a
buffer name-set mismatch the abort happens only after every shadow parameter
has been blended, with all buffers untouched. -/
theorem claim_C10_abort_asymmetry (m s : NnModule) (d : ℝ) :
    (m.paramNames ≠ s.paramNames → ema_update m s d = Except.error s) ∧
    (m.paramNames = s.paramNames → m.bufferNames ≠ s.bufferNames →
      ∃ e, ema_update m s d = Except.error e ∧
        (∀ n ∈ m.paramNames, e.params n = s.params n * d + m.params n * (1 - d)) ∧
        (∀ n ∉ m.paramNames, e.params n = s.params n) ∧
        e.buffers = s.buffers ∧ e.bufferNames = s.bufferNames ∧
        e.paramNames = s.paramNames) := by
  constructor
  · intro hp
    simp [ema_update, hp]
  · intro hp hb
    refine ⟨{ s with
        params := fun n =>
          if n ∈ m.paramNames then s.params n * d + m.params n * (1 - d)
          else s.params n }, ?_, ?_, ?_, rfl, rfl, rfl⟩
    · simp [ema_update, hp, hb]
    · intro n hn
      simp [hn]
    · intro n hn
      simp [hn]

/-- A concrete model module for the EMA witnesses. -/
def mWit : NnModule :=
  { paramNames := {"w"}, params := fun _ => 3
    bufferNames := {"rb"}, buffers := fun _ => 5 }

/-- A concrete shadow module with name sets matching `mWit`. -/
def sWit : NnModule :=
  { paramNames := {"w"}, params := fun _ => 7
    bufferNames := {"rb"}, buffers := fun _ => 11 }

/-- A concrete shadow module whose parameter name-set mismatches `mWit`. -/
def sMisP : NnModule :=
  { paramNames := ∅, params := fun _ => 7
    bufferNames := {"rb"}, buffers := fun _ => 11 }

/-- A concrete shadow module whose buffer name-set mismatches `mWit`. -/
def sMisB : NnModule :=
  { paramNames := {"w"}, params := fun _ => 7
    bufferNames := ∅, buffers := fun _ => 11 }

/-- Witness for C5 at the concrete pair `mWit`, `sWit`. -/
theorem claim_C5_ema_identities_witness :
    mWit.paramNames = sWit.paramNames ∧ mWit.bufferNames = sWit.bufferNames ∧
    (∃ r, ema_update mWit sWit 1 = Except.ok r ∧ ∀ n, r.params n = sWit.params n) :=
  ⟨rfl, rfl, (claim_C5_ema_identities mWit sWit rfl rfl (1 / 2)).1⟩

/-- Witness for C6 at the concrete mismatched pair `mWit`, `sMisP`. -/
theorem claim_C6_mismatch_aborts_witness :
    mWit.paramNames ≠ sMisP.paramNames ∧
    ((∃ e, ema_update mWit sMisP (1 / 2) = Except.error e) ∧
      ∀ r, ema_update mWit sMisP (1 / 2) ≠ Except.ok r) := by
  have hne : mWit.paramNames ≠ sMisP.paramNames := by
    simp [mWit, sMisP]
  exact ⟨hne, claim_C6_mismatch_aborts mWit sMisP (1 / 2) (Or.inl hne)⟩

/-- Witness for C10 at concrete mismatched pairs. -/
theorem claim_C10_abort_asymmetry_witness :
    (mWit.paramNames ≠ sMisP.paramNames ∧
      ema_update mWit sMisP (1 / 2) = Except.error sMisP) ∧
    (mWit.paramNames = sMisB.paramNames ∧ mWit.bufferNames ≠ sMisB.bufferNames ∧
      ∃ e, ema_update mWit sMisB (1 / 2) = Except.error e ∧
        (∀ n ∈ mWit.paramNames,
          e.params n = sMisB.params n * (1 / 2) + mWit.params n * (1 - 1 / 2)) ∧
        (∀ n ∉ mWit.paramNames, e.params n = sMisB.params n) ∧
        e.buffers = sMisB.buffers ∧ e.bufferNames = sMisB.bufferNames ∧
        e.paramNames = sMisB.paramNames) := by
  have hneP : mWit.paramNames ≠ sMisP.paramNames := by
    simp [mWit, sMisP]
  have hneB : mWit.bufferNames ≠ sMisB.bufferNames := by
    simp [mWit, sMisB]
  exact ⟨⟨hneP, (claim_C10_abort_asymmetry mWit sMisP (1 / 2)).1 hneP⟩,
    ⟨rfl, hneB, (claim_C10_abort_asymmetry mWit sMisB (1 / 2)).2 rfl hneB⟩⟩

/-! ### Sampler lemmas and claims (C1, C9) -/

/-- The working schedule of `sample` has exactly `steps` entries. -/
lemma sampleSched_length (steps : ℕ) : (sampleSched steps).length = steps := by
  simp only [sampleSched, linspace_one_zero, List.length_map, List.length_dropLast,
    List.length_range, Nat.add_sub_cancel]

/-- Closed form of the `i`-th working-schedule entry, `i < steps`. -/
lemma schedT_eq (steps i : ℕ) (h : i < steps) :
    schedT steps i = get_crash_schedule (1 - (i : ℝ) / (steps : ℝ)) := by
  unfold schedT
  rw [List.getD_eq_getElem _ _ (by rw [sampleSched_length]; exact h)]
  simp only [sampleSched, linspace_one_zero, List.getElem_map, List.getElem_dropLast,
    List.getElem_range]

/-- For `1 ≤ steps` and `i < steps`, the raw timestep `1 - i/steps` lies in
`(0, 1]`, hence so does its crash-schedule image. -/
lemma schedT_pos_le_one (steps i : ℕ) (hst : 1 ≤ steps) (h : i < steps) :
    0 < schedT steps i ∧ schedT steps i ≤ 1 := by
  rw [schedT_eq steps i h]
  have hsp : (0 : ℝ) < (steps : ℝ) := by exact_mod_cast Nat.lt_of_lt_of_le Nat.zero_lt_one hst
  have h1 : (i : ℝ) / (steps : ℝ) < 1 := (div_lt_one hsp).2 (by exact_mod_cast h)
  have h0 : 0 ≤ (i : ℝ) / (steps : ℝ) := by positivity
  exact ⟨get_crash_schedule_pos (by linarith) (by linarith),
    get_crash_schedule_le_one _⟩

/-- The noise scale `sigmas[i] = sin(t[i]*pi/2)` is nonzero at every loop
index `i < steps`. -/
lemma sampleSched_sigma_ne_zero (steps i : ℕ) (hst : 1 ≤ steps) (h : i < steps) :
    (get_alphas_sigmas (schedT steps i)).2 ≠ 0 := by
  obtain ⟨ht0, ht1⟩ := schedT_pos_le_one steps i hst h
  have hpi := Real.pi_pos
  have : 0 < Real.sin (schedT steps i * Real.pi / 2) :=
    Real.sin_pos_of_pos_of_lt_pi (by nlinarith) (by nlinarith)
  simp only [get_alphas_sigmas]
  exact ne_of_gt this

/-- Every iteration of the sampling loop makes exactly one model query. -/
lemma sampleStep_queries (model : ℝ → ℝ → ℝ) (eta : ℝ) (noise : ℕ → ℝ)
    (steps : ℕ) (s : SamplerState) (i : ℕ) :
    (sampleStep model eta noise steps s i).queries = s.queries + 1 := by
  simp only [sampleStep]
  split
  · split <;> rfl
  · rfl

lemma foldl_sampleStep_queries (model : ℝ → ℝ → ℝ) (eta : ℝ) (noise : ℕ → ℝ)
    (steps : ℕ) (l : List ℕ) (s : SamplerState) :
    (l.foldl (sampleStep model eta noise steps) s).queries = s.queries + l.length := by
  induction l generalizing s with
  | nil => simp
  | cons a l ih =>
    rw [List.foldl_cons, ih, sampleStep_queries]
    simp
    omega

/-- C1: for every `steps ≥ 1`, the working schedule of `sample` has exactly
`steps` entries, all strictly positive; the noise scale `sigmas[i]` is nonzero
at every loop index (so the DDIM ratio `sigmas[i+1]^2 / sigmas[i]^2` never
divides by zero); and the model is queried exactly `steps` times. -/
theorem claim_C1_schedule_safety (model : ℝ → ℝ → ℝ) (x0 eta : ℝ) (noise : ℕ → ℝ)
    (steps : ℕ) (hst : 1 ≤ steps) :
    (sampleSched steps).length = steps ∧
    (∀ i, i < steps → 0 < schedT steps i) ∧
    (∀ i, i < steps → (get_alphas_sigmas (schedT steps i)).2 ≠ 0) ∧
    (sample model x0 steps eta noise).queries = steps := by
  refine ⟨sampleSched_length steps, ?_, ?_, ?_⟩
  · intro i hi
    exact (schedT_pos_le_one steps i hst hi).1
  · intro i hi
    exact sampleSched_sigma_ne_zero steps i hst hi
  · rw [sample, foldl_sampleStep_queries]
    simp

/-- Witness for C1 at `steps = 1` with a trivial model. -/
theorem claim_C1_schedule_safety_witness :
    1 ≤ 1 ∧
    ((sampleSched 1).length = 1 ∧
      (∀ i, i < 1 → 0 < schedT 1 i) ∧
      (∀ i, i < 1 → (get_alphas_sigmas (schedT 1 i)).2 ≠ 0) ∧
      (sample (fun _ _ => 0) 0 1 0 (fun _ => 0)).queries = 1) :=
  ⟨le_refl 1, claim_C1_schedule_safety (fun _ _ => 0) 0 0 (fun _ => 0) 1 (le_refl 1)⟩

/-- With `eta = 0` one loop iteration neither reads the noise stream nor
advances the draw counter. -/
lemma sampleStep_eta_zero (model : ℝ → ℝ → ℝ) (noise noise' : ℕ → ℝ)
    (steps : ℕ) (s : SamplerState) (i : ℕ) :
    sampleStep model 0 noise steps s i = sampleStep model 0 noise' steps s i := by
  simp [sampleStep]

lemma sampleStep_eta_zero_draws (model : ℝ → ℝ → ℝ) (noise : ℕ → ℝ)
    (steps : ℕ) (s : SamplerState) (i : ℕ) :
    (sampleStep model 0 noise steps s i).draws = s.draws := by
  simp only [sampleStep]
  split
  · simp
  · rfl

/-- C9: with `eta = 0` the sampler is deterministic — the output does not
depend on the random source at all, and no randomness is drawn (the
fresh-noise branch is never executed). -/
theorem claim_C9_eta_zero_deterministic (model : ℝ → ℝ → ℝ) (x0 : ℝ)
    (steps : ℕ) (noise noise' : ℕ → ℝ) :
    (sample model x0 steps 0 noise).pred = (sample model x0 steps 0 noise').pred ∧
    (sample model x0 steps 0 noise).draws = 0 := by
  have hfold : ∀ (l : List ℕ) (s : SamplerState),
      l.foldl (sampleStep model 0 noise steps) s =
        l.foldl (sampleStep model 0 noise' steps) s := by
    intro l
    induction l with
    | nil => intro s; rfl
    | cons a l ih =>
      intro s
      rw [List.foldl_cons, List.foldl_cons, sampleStep_eta_zero model noise noise', ih]
  have hdraws : ∀ (l : List ℕ) (s : SamplerState),
      (l.foldl (sampleStep model 0 noise steps) s).draws = s.draws := by
    intro l
    induction l with
    | nil => intro s; rfl
    | cons a l ih =>
      intro s
      rw [List.foldl_cons, ih, sampleStep_eta_zero_draws]
  exact ⟨by rw [sample, sample, hfold], by rw [sample, hdraws]⟩

/-! ### Style-transfer schedule lemmas and claim (C4) -/

/-- The filtered style-transfer schedule is strictly increasing. -/
lemma styleStepList_pairwise (steps : ℕ) (noise_level : ℝ) (hst : 1 ≤ steps) :
    (styleStepList steps noise_level).Pairwise (· < ·) := by
  unfold styleStepList
  apply List.Pairwise.filter
  rw [List.pairwise_map]
  refine (List.pairwise_lt_range _).imp_of_mem ?_
  intro a b ha hb hab
  have hsp : (0 : ℝ) < (steps : ℝ) := by
    exact_mod_cast Nat.lt_of_lt_of_le Nat.zero_lt_one hst
  have ha' : (a : ℝ) ≤ (steps : ℝ) := by
    exact_mod_cast Nat.lt_succ_iff.1 (List.mem_range.1 ha)
  have hb' : (b : ℝ) ≤ (steps : ℝ) := by
    exact_mod_cast Nat.lt_succ_iff.1 (List.mem_range.1 hb)
  have hab' : (a : ℝ) < (b : ℝ) := by exact_mod_cast hab
  have hdiv : (a : ℝ) / (steps : ℝ) < (b : ℝ) / (steps : ℝ) := by gcongr
  exact get_crash_schedule_strictMonoOn
    ⟨by positivity, (div_le_one hsp).2 ha'⟩
    ⟨by positivity, (div_le_one hsp).2 hb'⟩ hdiv

/-- The sequence handed to the stepping loop is strictly decreasing. -/
lemma styleSteps_chain (steps : ℕ) (noise_level : ℝ) (hst : 1 ≤ steps) :
    (styleSteps steps noise_level).Chain' (· > ·) := by
  have hp : (styleStepList steps noise_level).reverse.Pairwise (· > ·) :=
    List.pairwise_reverse.2 (styleStepList_pairwise steps noise_level hst)
  exact (hp.sublist (List.dropLast_sublist _)).chain'

lemma head?_dropLast_two {α : Type} (l : List α) (h : 2 ≤ l.length) :
    l.dropLast.head? = l.head? := by
  rcases l with _ | ⟨a, _ | ⟨b, t⟩⟩
  · rfl
  · simp at h
  · rfl

/-- With at least two retained schedule entries, the first element handed to
the stepping loop is exactly `step_list[-1]`, the timestep used to noise the
input audio. -/
lemma styleSteps_head (steps : ℕ) (noise_level : ℝ)
    (h2 : 2 ≤ (styleStepList steps noise_level).length) :
    (styleSteps steps noise_level).head? = some (styleInitT steps noise_level) := by
  unfold styleSteps styleInitT
  rw [head?_dropLast_two _ (by rw [List.length_reverse]; exact h2)]
  rw [List.head?_reverse]
  have hne : styleStepList steps noise_level ≠ [] := by
    intro h
    rw [h] at h2
    simp at h2
  obtain ⟨x, hx⟩ := Option.isSome_iff_exists.1 (List.getLast?_isSome.2 hne)
  rw [hx]
  rfl

/-- C4: for `steps ≥ 1` and `noise_level ∈ (0,1]` with at least two schedule
timesteps strictly below `noise_level`, the timestep sequence handed to the
shared stepping loop is strictly decreasing and its first element equals the
timestep at which the input audio was noised (the `x0 = audio*alpha +
noise*sigma` mixing uses `alpha, sigma` at that same timestep). -/
theorem claim_C4_style_transfer_schedule (steps : ℕ) (noise_level : ℝ)
    (hst : 1 ≤ steps) (hnl0 : 0 < noise_level) (hnl1 : noise_level ≤ 1)
    (h2 : 2 ≤ (styleStepList steps noise_level).length) :
    (styleSteps steps noise_level).Chain' (· > ·) ∧
    (styleSteps steps noise_level).head? = some (styleInitT steps noise_level) ∧
    ∀ audio eps : ℝ, styleNoised audio eps steps noise_level =
      audio * (t_to_alpha_sigma (styleInitT steps noise_level)).1 +
        eps * (t_to_alpha_sigma (styleInitT steps noise_level)).2 :=
  ⟨styleSteps_chain steps noise_level hst,
    styleSteps_head steps noise_level h2,
    fun _ _ => rfl⟩

/-- The concrete style schedule at `steps = 2`, `noise_level = 1` retains the
two entries below `1` and drops the terminal entry `1`. -/
lemma styleStepList_two_one :
    styleStepList 2 1 = [get_crash_schedule 0, get_crash_schedule 2⁻¹] := by
  have h0 : get_crash_schedule (0 : ℝ) < 1 := by
    rw [get_crash_schedule_zero]
    norm_num
  have h1 : get_crash_schedule (2⁻¹ : ℝ) < 1 := by
    have hlt := get_crash_schedule_strictMonoOn
      (Set.mem_Icc.2 ⟨by norm_num, by norm_num⟩)
      (Set.mem_Icc.2 ⟨by norm_num, le_refl 1⟩)
      (show (2⁻¹ : ℝ) < 1 by norm_num)
    rwa [get_crash_schedule_one] at hlt
  have hend : ¬ get_crash_schedule (1 : ℝ) < 1 := by
    rw [get_crash_schedule_one]
    norm_num
  have h1' : get_crash_schedule ((1 : ℝ) / 2) < 1 := by
    rwa [show ((1 : ℝ) / 2) = (2⁻¹ : ℝ) by norm_num]
  unfold styleStepList
  rw [show List.range 3 = [0, 1, 2] from rfl]
  norm_num [List.filter, h0, h1, h1', hend]

/-- Witness for C4 at `steps = 2`, `noise_level = 1`. -/
theorem claim_C4_style_transfer_schedule_witness :
    (1 ≤ 2 ∧ (0 : ℝ) < 1 ∧ (1 : ℝ) ≤ 1 ∧ 2 ≤ (styleStepList 2 1).length) ∧
    ((styleSteps 2 1).Chain' (· > ·) ∧
      (styleSteps 2 1).head? = some (styleInitT 2 1) ∧
      ∀ audio eps : ℝ, styleNoised audio eps 2 1 =
        audio * (t_to_alpha_sigma (styleInitT 2 1)).1 +
          eps * (t_to_alpha_sigma (styleInitT 2 1)).2) := by
  have hlen : 2 ≤ (styleStepList 2 1).length := by
    rw [styleStepList_two_one]
    simp
  exact ⟨⟨by norm_num, by norm_num, le_refl 1, hlen⟩,
    claim_C4_style_transfer_schedule 2 1 (by norm_num) (by norm_num) (le_refl 1) hlen⟩
